import Mathlib

/-!
# primegen: range partitioning, start-point selection and batch file naming

A shallow embedding of `src/primegen.c`.

* `uint64_t` values are natural numbers below `two64`; every C operation that
  can wrap is followed by an explicit `% two64`.
* `int` values are integers; the implicit conversion of an `int` operand to
  `uint64_t` in mixed arithmetic is `intToU64`.
* The global generator state (`rand_x`, `rand_y`) is passed explicitly.
* The `do … while` loop of `primesNewMin` is run with a fuel bound; running
  out of fuel, returning, and the undefined division by zero are three
  different results (`Run`).
-/

namespace Primegen

/-! ## Machine integers -/

/-- The modulus of `uint64_t` arithmetic. -/
def two64 : Nat := 18446744073709551616

/-- The conversion of an `int` operand to `uint64_t` (value modulo `2^64`). -/
def intToU64 (i : Int) : Nat := (i % 18446744073709551616).toNat

/-- The `uint64_t` subtraction `a - b`. -/
def subU64 (a b : Nat) : Nat := (a + two64 - b) % two64

/-- The `uint64_t` addition `a + b`. -/
def addU64 (a b : Nat) : Nat := (a + b) % two64

/-- The `uint64_t` multiplication `a * b`. -/
def mulU64 (a b : Nat) : Nat := (a * b) % two64

/-- The `uint64_t` left shift `a << k` (for `k < 64`). -/
def shlU64 (a k : Nat) : Nat := (a <<< k) % two64

/-! ## Configuration (`primegen_cfg_st` and the global `cfg`) -/

/-- The struct `primegen_cfg_st`. -/
structure primegen_cfg_st where
  dirOut : String
  primeMin : Nat
  primeMax : Nat
  thrCnt : Int
  thrPrimeLoops : Int
  thrPrimesPerLoop : Int
  deriving DecidableEq

/-- The initial value of the global `cfg`. -/
def cfgDefault : primegen_cfg_st where
  dirOut := "out.primes.64"
  primeMin := 4294967295
  primeMax := 18446744073709551615
  thrCnt := 2
  thrPrimeLoops := 4
  thrPrimesPerLoop := 4096

/-- The fields of a configuration hold values of their C types. -/
def CfgInRange (c : primegen_cfg_st) : Prop :=
  c.primeMin < two64 ∧ c.primeMax < two64 ∧
  -2147483648 ≤ c.thrCnt ∧ c.thrCnt < 2147483648

instance (c : primegen_cfg_st) : Decidable (CfgInRange c) := by
  unfold CfgInRange; infer_instance

/-! ## The random source (`rand_x`, `rand_y`, `rand_init`, `rand_get`) -/

/-- The two static state words `rand_x` and `rand_y`. -/
structure RandState where
  rand_x : Nat
  rand_y : Nat
  deriving DecidableEq

/-- The function `rand_init`; `t1` and `t2` are the two readings of `__rdtsc()`. -/
def rand_init (t1 t2 : Nat) : RandState where
  rand_x := mulU64 t1 0x9E3779B185EBCA87
  rand_y := mulU64 t2 0xC2B2AE3D27D4EB4F

/-- The function `rand_get`, statement by statement; returns the value and the new state. -/
def rand_get (s : RandState) : Nat × RandState :=
  let x0 := s.rand_y                                   -- rand_x  = rand_y;
  let x1 := x0 ^^^ shlU64 x0 23                        -- rand_x ^= (rand_x << 23);
  let x2 := x1 ^^^ (x1 >>> 17)                         -- rand_x ^= (rand_x >> 17);
  let x3 := x2 ^^^ (s.rand_y ^^^ (s.rand_y >>> 26))    -- rand_x ^= rand_y ^ (rand_y >> 26);
  let y1 := x3                                         -- rand_y  = rand_x;
  (addU64 x3 y1, { rand_x := x3, rand_y := y1 })       -- return rand_x + rand_y;

/-! ## Range partitioning and start-point selection (`primesNewMin`) -/

/-- Result of running a loop with a fuel bound. -/
inductive Run (α : Type) where
  | done (a : α)
  | outOfFuel
  | undefined
  deriving DecidableEq

/-- The local `rangeCnt` of `primesNewMin`; `none` is the division by zero. -/
def rangeCnt (c : primegen_cfg_st) : Option Nat :=
  if intToU64 c.thrCnt = 0 then none
  else some (subU64 c.primeMax c.primeMin / intToU64 c.thrCnt)

/-- The local `rangeMin` of `primesNewMin`, given `rangeCnt`. -/
def rangeMinOf (c : primegen_cfg_st) (cnt : Nat) (thrId : Int) : Nat :=
  addU64 c.primeMin (mulU64 (intToU64 thrId) cnt)

/-- The local `rangeMax` of `primesNewMin`, given `rangeCnt`. -/
def rangeMaxOf (c : primegen_cfg_st) (cnt : Nat) (thrId : Int) : Nat :=
  addU64 (rangeMinOf c cnt thrId) cnt

/-- The `rangeMin` that `primesNewMin` computes for a thread. -/
def rangeMin (c : primegen_cfg_st) (thrId : Int) : Option Nat :=
  (rangeCnt c).map fun cnt => rangeMinOf c cnt thrId

/-- The `rangeMax` that `primesNewMin` computes for a thread. -/
def rangeMax (c : primegen_cfg_st) (thrId : Int) : Option Nat :=
  (rangeCnt c).map fun cnt => rangeMaxOf c cnt thrId

/-- The loop condition `p <= rangeMin || p >= rangeMax`: the candidate is redrawn. -/
def redraw (lo hi p : Nat) : Bool := decide (p ≤ lo) || decide (p ≥ hi)

/-- The `do … while` loop of `primesNewMin`, with a bound on the number of draws. -/
def selectLoop (lo hi : Nat) : Nat → RandState → Run (Nat × RandState)
  | 0, _ => Run.outOfFuel
  | fuel + 1, s =>
    let r := rand_get s
    if redraw lo hi r.1 then selectLoop lo hi fuel r.2 else Run.done (r.1, r.2)

/-- The function `primesNewMin`, with a bound on the number of draws. -/
def primesNewMin (c : primegen_cfg_st) (thrId : Int) (fuel : Nat) (s : RandState) :
    Run (Nat × RandState) :=
  match rangeCnt c with
  | none => Run.undefined
  | some cnt => selectLoop (rangeMinOf c cnt thrId) (rangeMaxOf c cnt thrId) fuel s

/-- A configuration with `primeMin < primeMax` and a thread count `T ≥ 1`. -/
structure ValidCfg (c : primegen_cfg_st) : Prop where
  inRange : CfgInRange c
  ordered : c.primeMin < c.primeMax
  threads : 1 ≤ c.thrCnt

/-- The width `(primeMax - primeMin) / T` in exact arithmetic. -/
def spanOf (c : primegen_cfg_st) : Nat := (c.primeMax - c.primeMin) / c.thrCnt.toNat

/-! ## Concrete configurations and states used below -/

/-- The range `[100, 200)` split among three threads (width 33, one value left over). -/
def cfgThree : primegen_cfg_st := { cfgDefault with primeMin := 100, primeMax := 200, thrCnt := 3 }

/-- A range narrower than the thread count: `primeMin = 0`, `primeMax = 1`, two threads. -/
def cfgNarrow : primegen_cfg_st := { cfgDefault with primeMin := 0, primeMax := 1, thrCnt := 2 }

/-- An inverted range with two threads: `primeMin = 10`, `primeMax = 5`. -/
def cfgInverted : primegen_cfg_st := { cfgDefault with primeMin := 10, primeMax := 5, thrCnt := 2 }

/-- An inverted range with one thread: `primeMin = 10`, `primeMax = 5`. -/
def cfgInvertedOne : primegen_cfg_st :=
  { cfgDefault with primeMin := 10, primeMax := 5, thrCnt := 1 }

/-- Two threads over `[0, 2)`: every sub-range has width 1. -/
def cfgUnit : primegen_cfg_st := { cfgDefault with primeMin := 0, primeMax := 2, thrCnt := 2 }

/-- A generator state with `rand_y = 1`. -/
def seedOne : RandState := { rand_x := 0, rand_y := 1 }

/-- The value that `rand_get` leaves in both state words, as a function of the incoming
`rand_y` (the three xor-assignments of `rand_get` after `rand_x = rand_y`). -/
def mixY (y : Nat) : Nat :=
  let x1 := y ^^^ shlU64 y 23
  let x2 := x1 ^^^ (x1 >>> 17)
  x2 ^^^ (y ^^^ (y >>> 26))

/-- The generator as the specification words it: the shifts are applied to the incoming
`x`, then `y` and `y >> 26` are folded in, the result is stored in both words and
`new x + new y` is returned. -/
def rand_get_asClaimed (s : RandState) : Nat × RandState :=
  let n1 := s.rand_x ^^^ shlU64 s.rand_x 23
  let n2 := n1 ^^^ (n1 >>> 17)
  let n3 := n2 ^^^ s.rand_y ^^^ (s.rand_y >>> 26)
  (addU64 n3 n3, { rand_x := n3, rand_y := n3 })

/-- Preimages under `mixY` of the powers of two `2^0, …, 2^63`. -/
def mixInverseColumns : List Nat :=
  [288228177128717824, 288232575175229952, 576465150350459904,
   1152930300700919808, 2305860601401839616, 4611721202803679232,
   9223442405607358464, 9224007554584035843, 9225137852537390597,
   9227398448444100105, 9231919640257519121, 9240962023884357153,
   9258906053649645121, 9295075588156997249, 9367414657171701505,
   9224005355560780289, 9225133454490879489, 9227389652351077889,
   9231902048071474689, 9240926839512268289, 9258976422393822721,
   9294934850668641793, 9367133182194990593, 9223442405607358465,
   9224007554584035841, 9225137852537390593, 9227398448444100097,
   9231919640257519105, 9240962023884357121, 9258906053649645057,
   9295075588156997121, 9367414657171701249, 9224005355560779777,
   9225133454490878465, 9227389652351075841, 9231902048071470593,
   9240926839512260097, 9258976422393839105, 9294934850668609025,
   9367133182194925057, 9511529845247557121, 9512235731712491521,
   9801594206794301953, 10380311156957922817, 11537745057285164545,
   13852612857939648001, 35604385539063297, 71208771078126594,
   142417542156253188, 284835084312506376, 295018761076088336,
   590037522152176672, 1180075044304353344, 2360150088608706688,
   4720300177217413376, 9294371905010154496, 9366007290878016003,
   9509278062613739013, 9516739365699604489, 9810601474768527889,
   10398325692906341921, 11573774129182068289, 13924671001733455489,
   108509703042072833]

/-- The xor of the columns selected by the binary digits of `m`, lowest digit first. -/
def selectColumns : List Nat → Nat → Nat
  | [], _ => 0
  | g :: gs, m => (if m % 2 = 1 then g else 0) ^^^ selectColumns gs (m / 2)

/-- A generator state with `rand_x = 1` and `rand_y = 0`. -/
def seedXOnly : RandState := { rand_x := 1, rand_y := 0 }

/-! ## Batch file naming and the worker loop (`thrRun`) -/

/-- One piece of a `printf` format: literal text, a `%s` or a `%"PRIu64"` conversion. -/
inductive FmtItem where
  | text (t : String)
  | convS
  | convU64
  deriving DecidableEq

/-- One variadic argument of `sprintf`. -/
inductive FmtArg where
  | str (s : String)
  | u64 (n : Nat)
  deriving DecidableEq

/-- The text `printf` produces for a format and its arguments; `none` when a conversion has
no argument of its type. -/
def formatItems : List FmtItem → List FmtArg → Option String
  | [], _ => some ""
  | FmtItem.text t :: fs, args => (formatItems fs args).map fun r => t ++ r
  | FmtItem.convS :: fs, FmtArg.str s :: args => (formatItems fs args).map fun r => s ++ r
  | FmtItem.convU64 :: fs, FmtArg.u64 n :: args =>
    (formatItems fs args).map fun r => Nat.repr n ++ r
  | _, _ => none

/-- The call `sprintf(buf, fmt, …)` into a buffer of `cap` bytes; `none` when the text and
its terminator do not fit (undefined behaviour in C) or the arguments do not match. -/
def sprintf (cap : Nat) (fmt : List FmtItem) (args : List FmtArg) : Option String :=
  match formatItems fmt args with
  | none => none
  | some r => if r.utf8ByteSize < cap then some r else none

/-- The format string of `thrRun`, line 115. -/
def fNameFormat : List FmtItem :=
  [FmtItem.text "./", FmtItem.convS, FmtItem.text "/", FmtItem.convU64,
   FmtItem.text ".primes.u64.bin"]

/-- The contents of `fName` in `thrRun` for an output directory and a first batch element. -/
def fName (dirOut : String) (first : Nat) : Option String :=
  sprintf 256 fNameFormat [FmtArg.str dirOut, FmtArg.u64 first]

/-- The path the specification gives for a batch: `<outDir>/<first>.primes.u64.bin`. -/
def fName_asClaimed (dirOut : String) (first : Nat) : String :=
  dirOut ++ "/" ++ Nat.repr first ++ ".primes.u64.bin"

/-- What one pass of the loop body of `thrRun` did with its file. -/
inductive BatchOutcome where
  | written (path : String) (data : List Nat)
  | openFailed (path : String)
  deriving DecidableEq

/-- The path passed to `fopen`. -/
def BatchOutcome.path : BatchOutcome → String
  | BatchOutcome.written p _ => p
  | BatchOutcome.openFailed p => p

/-- One pass of the loop body of `thrRun`. The prime generator `generate` (primesieve) and
the success of `fopen` are external; an empty batch or an overlong name is undefined. -/
def thrRunBody (c : primegen_cfg_st) (generate : Int → Nat → List Nat)
    (fopenOk : String → Bool) (thrNum : Int) (fuel : Nat) (s : RandState) :
    Run (BatchOutcome × RandState) :=
  match primesNewMin c thrNum fuel s with
  | Run.outOfFuel => Run.outOfFuel
  | Run.undefined => Run.undefined
  | Run.done (primeMin, s1) =>
    match generate c.thrPrimesPerLoop primeMin with
    | [] => Run.undefined
    | first :: rest =>
      match fName c.dirOut first with
      | none => Run.undefined
      | some name =>
        if fopenOk name then
          Run.done (BatchOutcome.written name ((first :: rest).take c.thrPrimesPerLoop.toNat), s1)
        else Run.done (BatchOutcome.openFailed name, s1)

/-- The function `thrRun`: `loops` passes of the body; stops at the first `fopen` failure
(`exit(1)`). Returns the outcomes in order. -/
def thrRunLoop (c : primegen_cfg_st) (generate : Int → Nat → List Nat)
    (fopenOk : String → Bool) (thrNum : Int) (fuel : Nat) :
    Nat → RandState → Run (List BatchOutcome × RandState)
  | 0, s => Run.done ([], s)
  | loops + 1, s =>
    match thrRunBody c generate fopenOk thrNum fuel s with
    | Run.outOfFuel => Run.outOfFuel
    | Run.undefined => Run.undefined
    | Run.done (BatchOutcome.openFailed p, s1) => Run.done ([BatchOutcome.openFailed p], s1)
    | Run.done (BatchOutcome.written p d, s1) =>
      match thrRunLoop c generate fopenOk thrNum fuel loops s1 with
      | Run.done (os, s2) => Run.done (BatchOutcome.written p d :: os, s2)
      | Run.outOfFuel => Run.outOfFuel
      | Run.undefined => Run.undefined

/-- The function `thrRun` for the worker `thrNum`. -/
def thrRun (c : primegen_cfg_st) (generate : Int → Nat → List Nat)
    (fopenOk : String → Bool) (thrNum : Int) (fuel : Nat) (s : RandState) :
    Run (List BatchOutcome × RandState) :=
  thrRunLoop c generate fopenOk thrNum fuel c.thrPrimeLoops.toNat s

/-- The smallest prime `≥ n`: by the contract of the external prime generator this is the
first element of a batch requested with lower bound `n`. -/
def firstPrimeFrom (n : Nat) : Nat := Nat.find (Nat.exists_infinite_primes n)

/-- The range `[0, 52)` split between two threads: sub-ranges `(0, 26)` and `(26, 52)`. -/
def cfgTwo : primegen_cfg_st := { cfgDefault with primeMin := 0, primeMax := 52, thrCnt := 2 }

/-- A prime generator stub for the range below 60: the primes from the start point on. -/
def primesBelow60 (n : Int) (start : Nat) : List Nat :=
  ([2, 3, 5, 7, 11, 13, 17, 19, 23, 29, 31, 37, 41, 43, 47, 53, 59].filter
    fun q => decide (start ≤ q)).take n.toNat

/-- A generator state from which `rand_get` returns `24`. -/
def seed24 : RandState := { rand_x := 1729395451051379712, rand_y := 1729395451051379712 }

/-- A generator state from which `rand_get` returns `28`. -/
def seed28 : RandState := { rand_x := 2017628026226609664, rand_y := 2017628026226609664 }

/-! ## Command line and start-up (`cliOptsToCfg`, `main`) -/

/-- One return of `getopt`: the option character and the string `optarg`. -/
structure GetoptResult where
  opt : Char
  optarg : String
  deriving DecidableEq

/-- The conversion of a `long` to `int` on assignment (value modulo `2^32`). -/
def wrapInt32 (z : Int) : Int := (z + 2147483648) % 4294967296 - 2147483648

/-- The option characters that set a field of `cfg`. -/
def settingOpts : List Char := ['o', 'b', 'e', 't', 'l', 'p']

/-- The `switch` of `cliOptsToCfg` for one return of `getopt`; `none` is the call of
`printHelpAndExit` in case `h`. The library functions `strtoull` and `strtol` are
parameters. -/
def cliOptsSwitch (strtoull : String → Nat) (strtol : String → Int) (r : GetoptResult)
    (c : primegen_cfg_st) (hasErr : Bool) : Option (primegen_cfg_st × Bool) :=
  if r.opt = 'h' then none
  else if r.opt = 'o' then some ({ c with dirOut := r.optarg }, hasErr)
  else if r.opt = 'b' then some ({ c with primeMin := strtoull r.optarg % two64 }, hasErr)
  else if r.opt = 'e' then some ({ c with primeMax := strtoull r.optarg % two64 }, hasErr)
  else if r.opt = 't' then some ({ c with thrCnt := wrapInt32 (strtol r.optarg) }, hasErr)
  else if r.opt = 'l' then
    some ({ c with thrPrimeLoops := wrapInt32 (strtol r.optarg) }, hasErr)
  else if r.opt = 'p' then
    some ({ c with thrPrimesPerLoop := wrapInt32 (strtol r.optarg) }, hasErr)
  else some (c, true)

/-- The `while` loop of `cliOptsToCfg` over the successive returns of `getopt`. -/
def cliOptsLoop (strtoull : String → Nat) (strtol : String → Int) :
    List GetoptResult → primegen_cfg_st → Bool → Option (primegen_cfg_st × Bool)
  | [], c, hasErr => some (c, hasErr)
  | r :: rs, c, hasErr =>
    match cliOptsSwitch strtoull strtol r c hasErr with
    | none => none
    | some (c1, e1) => cliOptsLoop strtoull strtol rs c1 e1

/-- How `cliOptsToCfg` ends: the process exits, or `cfg` holds the configuration. -/
inductive CliResult where
  | exit (code : Nat)
  | cfg (c : primegen_cfg_st)
  deriving DecidableEq

/-- The function `cliOptsToCfg`: `opts` are the returns of `getopt` before `-1`, and
`extraArgs` is the number of arguments left at `optind`. -/
def cliOptsToCfg (strtoull : String → Nat) (strtol : String → Int)
    (opts : List GetoptResult) (extraArgs : Nat) (c : primegen_cfg_st) : CliResult :=
  match cliOptsLoop strtoull strtol opts c false with
  | none => CliResult.exit 1
  | some (c1, hasErr) =>
    if hasErr || decide (0 < extraArgs) then CliResult.exit 1 else CliResult.cfg c1

/-- Results of the library calls `main` makes before and while spawning:
`pthread_attr_init`, `calloc(cfg.thrCnt, …)` as a function of the count, and
`pthread_create` as a function of the thread index. -/
structure MainEnv where
  attrInitOk : Bool
  callocOk : Int → Bool
  createOk : Int → Bool

/-- How `main` stands after its spawning loop: the workers created so far, and whether the
process has exited. -/
inductive MainResult where
  | exited (code : Nat) (workers : List Int)
  | spawned (workers : List Int)
  deriving DecidableEq

/-- The spawning loop of `main`: one `pthread_create` per thread index. -/
def spawnWorkers (env : MainEnv) : List Int → List Int → MainResult
  | [], done => MainResult.spawned done
  | thrId :: rest, done =>
    if env.createOk thrId then spawnWorkers env rest (done ++ [thrId])
    else MainResult.exited 1 done

/-- The thread indices visited by `for (thrId = 0; thrId < cfg.thrCnt; ++thrId)`. -/
def threadIds (c : primegen_cfg_st) : List Int :=
  (List.range c.thrCnt.toNat).map Int.ofNat

/-- The function `main` up to the end of its spawning loop, starting from the initial
value of the global `cfg`. -/
def mainUpToSpawn (env : MainEnv) (strtoull : String → Nat) (strtol : String → Int)
    (opts : List GetoptResult) (extraArgs : Nat) : MainResult :=
  match cliOptsToCfg strtoull strtol opts extraArgs cfgDefault with
  | CliResult.exit code => MainResult.exited code []
  | CliResult.cfg c =>
    if !env.attrInitOk then MainResult.exited 1 []
    else if !env.callocOk c.thrCnt then MainResult.exited 1 []
    else spawnWorkers env (threadIds c) []

/-- The value of a string of decimal digits, as `strtoull` and `strtol` read it when it
fits the result type. -/
def decimalValue (s : String) : Nat :=
  (s.data.takeWhile Char.isDigit).foldl (fun acc ch => acc * 10 + (ch.toNat - 48)) 0

/-- An environment in which every library call of `main` succeeds. -/
def envAllOk : MainEnv :=
  { attrInitOk := true, callocOk := fun _ => true, createOk := fun _ => true }

/-- An environment in which `calloc` fails and every other library call succeeds. -/
def envCallocFails : MainEnv :=
  { attrInitOk := true, callocOk := fun _ => false, createOk := fun _ => true }

/-- The argument of the last return of `getopt` with option character `ch`, if any. -/
def lastArg (ch : Char) : List GetoptResult → Option String
  | [] => none
  | r :: rs =>
    match lastArg ch rs with
    | some a => some a
    | none => if r.opt = ch then some r.optarg else none

/-- The command line is in error: a trailing argument, or a return of `getopt` that is
not one of the setting options. -/
def CliError (opts : List GetoptResult) (extraArgs : Nat) : Prop :=
  0 < extraArgs ∨ ∃ r ∈ opts, r.opt ∉ settingOpts

/-- A thread set-up call of `main` fails before the first worker exists:
`pthread_attr_init`, `calloc`, or the `pthread_create` of thread 0. -/
def SetupFails (env : MainEnv) (c : primegen_cfg_st) : Prop :=
  env.attrInitOk = false ∨ env.callocOk c.thrCnt = false ∨
    (0 < c.thrCnt ∧ env.createOk 0 = false)

/-- The command line `-b 10 -e 5`. -/
def optsInverted : List GetoptResult := [⟨'b', "10"⟩, ⟨'e', "5"⟩]

/-- The command line `-b 0 -e 1 -t 2`. -/
def optsNarrow : List GetoptResult := [⟨'b', "0"⟩, ⟨'e', "1"⟩, ⟨'t', "2"⟩]

/-! ## Facts about the machine arithmetic -/

theorem intToU64_of_nonneg (i : Int) (h0 : 0 ≤ i) (h1 : i < 18446744073709551616) :
    intToU64 i = i.toNat := by
  unfold intToU64
  rw [Int.emod_eq_of_lt h0 h1]

theorem addU64_lt (a b : Nat) : addU64 a b < two64 := by
  unfold addU64 two64
  omega

theorem rangeMinOf_lt (c : primegen_cfg_st) (cnt : Nat) (thrId : Int) :
    rangeMinOf c cnt thrId < two64 :=
  addU64_lt _ _

theorem rangeMaxOf_lt (c : primegen_cfg_st) (cnt : Nat) (thrId : Int) :
    rangeMaxOf c cnt thrId < two64 :=
  addU64_lt _ _

/-- The first `k ≤ T` slices of width `D / T` fit in `D`. -/
theorem slices_le (D T k : Nat) (hk : k ≤ T) : k * (D / T) ≤ D :=
  calc k * (D / T) ≤ T * (D / T) := Nat.mul_le_mul_right _ hk
    _ ≤ D := Nat.mul_div_le D T

theorem rangeCnt_valid (c : primegen_cfg_st) (h : ValidCfg c) :
    rangeCnt c = some (spanOf c) := by
  obtain ⟨⟨h1, h2, h3, h4⟩, h5, h6⟩ := h
  have hT : intToU64 c.thrCnt = c.thrCnt.toNat :=
    intToU64_of_nonneg _ (by omega) (by omega)
  have hsub : subU64 c.primeMax c.primeMin = c.primeMax - c.primeMin := by
    unfold subU64 two64 at *
    omega
  unfold rangeCnt spanOf
  rw [hT, hsub, if_neg (by omega)]

/-- Under a valid configuration the first `k ≤ T` slices stay below `primeMax`. -/
theorem valid_slices (c : primegen_cfg_st) (h : ValidCfg c) (k : Nat)
    (hk : k ≤ c.thrCnt.toNat) : c.primeMin + k * spanOf c ≤ c.primeMax := by
  have := slices_le (c.primeMax - c.primeMin) c.thrCnt.toNat k hk
  have := h.ordered
  unfold spanOf
  omega

theorem rangeMinOf_valid (c : primegen_cfg_st) (h : ValidCfg c) (i : Int)
    (h0 : 0 ≤ i) (h1 : i ≤ c.thrCnt) :
    rangeMinOf c (spanOf c) i = c.primeMin + i.toNat * spanOf c := by
  obtain ⟨_, h2, _, h4⟩ := h.inRange
  have hi : intToU64 i = i.toNat := intToU64_of_nonneg _ h0 (by omega)
  have hb := valid_slices c h i.toNat (by omega)
  unfold rangeMinOf addU64 mulU64
  rw [hi]
  unfold two64 at *
  rw [Nat.mod_eq_of_lt (by omega), Nat.mod_eq_of_lt (by omega)]

theorem rangeMaxOf_valid (c : primegen_cfg_st) (h : ValidCfg c) (i : Int)
    (h0 : 0 ≤ i) (h1 : i < c.thrCnt) :
    rangeMaxOf c (spanOf c) i = c.primeMin + (i.toNat + 1) * spanOf c := by
  obtain ⟨_, h2, _, h4⟩ := h.inRange
  have hb := valid_slices c h (i.toNat + 1) (by omega)
  unfold rangeMaxOf addU64
  rw [rangeMinOf_valid c h i h0 (by omega)]
  unfold two64 at *
  rw [Nat.mod_eq_of_lt (by rw [Nat.add_mul] at hb; omega)]
  rw [Nat.add_mul]
  omega

/-- Under a valid configuration the sub-range of a thread ends at or before the start of
the sub-range of every later thread. -/
theorem subranges_ordered (c : primegen_cfg_st) (h : ValidCfg c) (i j : Int)
    (h0 : 0 ≤ i) (hij : i < j) (hj : j < c.thrCnt) :
    rangeMaxOf c (spanOf c) i ≤ rangeMinOf c (spanOf c) j := by
  have hmax := rangeMaxOf_valid c h i h0 (by omega)
  have hminj := rangeMinOf_valid c h j (by omega) (by omega)
  have hle : (i.toNat + 1) * spanOf c ≤ j.toNat * spanOf c :=
    Nat.mul_le_mul_right _ (by omega)
  rw [hmax, hminj]; omega

/-! ## Partitioning under a valid configuration -/

/-- C2: for `primeMin < primeMax` and `T ≥ 1`, with `span = (primeMax - primeMin) / T`, the
products `thrId * span` and the sums `primeMin + thrId * span`, `rangeMin + span` of
`primesNewMin` stay below `2^64` for every `thrId` in `[0, T)`; the union of the `T`
sub-ranges `[rangeMin, rangeMax)` is exactly `[primeMin, primeMin + T * span)`; the last
sub-range ends at `primeMin + T * span ≤ primeMax`; and the number of values left below
`primeMax` is `(primeMax - primeMin) mod T`, which is less than `T`. -/
theorem partition_exact_cover (c : primegen_cfg_st) (h : ValidCfg c) :
    rangeCnt c = some (spanOf c) ∧
    (∀ i : Int, 0 ≤ i → i < c.thrCnt →
        intToU64 i * spanOf c < two64 ∧
        c.primeMin + intToU64 i * spanOf c < two64 ∧
        rangeMinOf c (spanOf c) i + spanOf c < two64 ∧
        rangeMinOf c (spanOf c) i = c.primeMin + i.toNat * spanOf c ∧
        rangeMaxOf c (spanOf c) i = rangeMinOf c (spanOf c) i + spanOf c) ∧
    (∀ v : Nat,
        (∃ i : Int, 0 ≤ i ∧ i < c.thrCnt ∧
          rangeMinOf c (spanOf c) i ≤ v ∧ v < rangeMaxOf c (spanOf c) i) ↔
        (c.primeMin ≤ v ∧ v < c.primeMin + c.thrCnt.toNat * spanOf c)) ∧
    rangeMaxOf c (spanOf c) (c.thrCnt - 1) = c.primeMin + c.thrCnt.toNat * spanOf c ∧
    rangeMaxOf c (spanOf c) (c.thrCnt - 1) ≤ c.primeMax ∧
    c.primeMax - rangeMaxOf c (spanOf c) (c.thrCnt - 1)
      = (c.primeMax - c.primeMin) % c.thrCnt.toNat ∧
    (c.primeMax - c.primeMin) % c.thrCnt.toNat < c.thrCnt.toNat := by
  have hT := h.threads
  have hord := h.ordered
  obtain ⟨_, hmax, _, hcnt⟩ := h.inRange
  have hlast : rangeMaxOf c (spanOf c) (c.thrCnt - 1)
      = c.primeMin + c.thrCnt.toNat * spanOf c := by
    rw [rangeMaxOf_valid c h _ (by omega) (by omega)]
    have : (c.thrCnt - 1).toNat + 1 = c.thrCnt.toNat := by omega
    rw [this]
  have hfit := valid_slices c h c.thrCnt.toNat (Nat.le_refl _)
  refine ⟨rangeCnt_valid c h, ?_, ?_, hlast, ?_, ?_, ?_⟩
  · intro i h0 h1
    have hi : intToU64 i = i.toNat := intToU64_of_nonneg _ h0 (by omega)
    have hmin := rangeMinOf_valid c h i h0 (by omega)
    have hmx := rangeMaxOf_valid c h i h0 h1
    have hb := valid_slices c h (i.toNat + 1) (by omega)
    rw [Nat.add_mul] at hb hmx
    rw [hi, hmin, hmx]
    unfold two64 at *
    omega
  · intro v
    constructor
    · rintro ⟨i, h0, h1, hlo, hhi⟩
      rw [rangeMinOf_valid c h i h0 (by omega)] at hlo
      rw [rangeMaxOf_valid c h i h0 h1] at hhi
      have : (i.toNat + 1) * spanOf c ≤ c.thrCnt.toNat * spanOf c :=
        Nat.mul_le_mul_right _ (by omega)
      omega
    · rintro ⟨hlo, hhi⟩
      have hpos : 0 < spanOf c := by
        rcases Nat.eq_zero_or_pos (spanOf c) with h0 | h0
        · rw [h0] at hhi; omega
        · exact h0
      have hk : (v - c.primeMin) / spanOf c < c.thrCnt.toNat := by
        rw [Nat.div_lt_iff_lt_mul hpos]
        omega
      have hdm := Nat.div_add_mod (v - c.primeMin) (spanOf c)
      have hr := Nat.mod_lt (v - c.primeMin) hpos
      rw [Nat.mul_comm] at hdm
      generalize (v - c.primeMin) / spanOf c = q at hk hdm
      refine ⟨(q : Int), by omega, by omega, ?_, ?_⟩
      · rw [rangeMinOf_valid c h _ (by omega) (by omega), Int.toNat_ofNat]
        omega
      · rw [rangeMaxOf_valid c h _ (by omega) (by omega), Int.toNat_ofNat, Nat.add_mul]
        omega
  · rw [hlast]; exact hfit
  · rw [hlast]
    have := Nat.mod_add_div (c.primeMax - c.primeMin) c.thrCnt.toNat
    unfold spanOf at *
    omega
  · exact Nat.mod_lt _ (by omega)

/-- A concrete instance of C2: `[100, 200)` among three threads. -/
theorem partition_exact_cover_witness :
    ValidCfg cfgThree ∧ spanOf cfgThree = 33 ∧
    rangeCnt cfgThree = some (spanOf cfgThree) ∧
    rangeMaxOf cfgThree (spanOf cfgThree) (cfgThree.thrCnt - 1) ≤ cfgThree.primeMax ∧
    cfgThree.primeMax - rangeMaxOf cfgThree (spanOf cfgThree) (cfgThree.thrCnt - 1)
      = (cfgThree.primeMax - cfgThree.primeMin) % cfgThree.thrCnt.toNat :=
  have h : ValidCfg cfgThree := ⟨by decide, by decide, by decide⟩
  ⟨h, by decide, (partition_exact_cover cfgThree h).1,
    (partition_exact_cover cfgThree h).2.2.2.2.1,
    (partition_exact_cover cfgThree h).2.2.2.2.2.1⟩

/-- C1 as stated fails: with `primeMin = 0 < primeMax = 1` and `T = 2` the two threads get
the same `rangeMin = 0`, so the order of the sub-ranges is not strict. -/
theorem partition_strict_order_fails :
    cfgNarrow.primeMin < cfgNarrow.primeMax ∧ 1 ≤ cfgNarrow.thrCnt ∧ (0 : Int) < cfgNarrow.thrCnt - 1 ∧
    rangeMin cfgNarrow 0 = some 0 ∧ rangeMin cfgNarrow (0 + 1) = some 0 ∧
    ¬ (∃ a b, rangeMin cfgNarrow 0 = some a ∧ rangeMin cfgNarrow (0 + 1) = some b ∧ a < b) := by
  refine ⟨by decide, by decide, by decide, by decide, by decide, ?_⟩
  rintro ⟨a, b, ha, hb, hab⟩
  have h0 : rangeMin cfgNarrow 0 = some 0 := by decide
  have h1 : rangeMin cfgNarrow (0 + 1) = some 0 := by decide
  rw [h0] at ha
  rw [h1] at hb
  cases ha
  cases hb
  exact Nat.lt_irrefl _ hab

/-- C1 (amended): for `primeMin < primeMax` and `T ≥ 1`, consecutive sub-ranges are adjacent
(`rangeMax(i) = rangeMin(i+1)`), `rangeMin(i) ≤ rangeMin(i+1)` with strict inequality
whenever the width `span = (primeMax - primeMin) / T` is positive, and the sub-ranges
`[rangeMin, rangeMax)` of two different threads share no value. -/
theorem partition_adjacent_ordered (c : primegen_cfg_st) (h : ValidCfg c) :
    rangeCnt c = some (spanOf c) ∧
    (∀ i : Int, 0 ≤ i → i + 1 < c.thrCnt →
        rangeMax c i = rangeMin c (i + 1) ∧
        ∃ a b, rangeMin c i = some a ∧ rangeMin c (i + 1) = some b ∧ a ≤ b ∧
          (0 < spanOf c → a < b)) ∧
    (∀ i j : Int, 0 ≤ i → i < j → j < c.thrCnt →
        rangeMaxOf c (spanOf c) i ≤ rangeMinOf c (spanOf c) j ∧
        ∀ v : Nat, ¬ (rangeMinOf c (spanOf c) i ≤ v ∧ v < rangeMaxOf c (spanOf c) i ∧
                      rangeMinOf c (spanOf c) j ≤ v ∧ v < rangeMaxOf c (spanOf c) j)) := by
  have hcnt := rangeCnt_valid c h
  refine ⟨hcnt, ?_, ?_⟩
  · intro i h0 h1
    have hmin := rangeMinOf_valid c h i h0 (by omega)
    have hmin1 := rangeMinOf_valid c h (i + 1) (by omega) (by omega)
    have hmax := rangeMaxOf_valid c h i h0 (by omega)
    have hsucc : (i + 1).toNat = i.toNat + 1 := by omega
    rw [hsucc] at hmin1
    refine ⟨?_, rangeMinOf c (spanOf c) i, rangeMinOf c (spanOf c) (i + 1), ?_, ?_, ?_, ?_⟩
    · simp only [rangeMax, rangeMin, hcnt, Option.map_some']
      rw [hmax, hmin1]
    · simp only [rangeMin, hcnt, Option.map_some']
    · simp only [rangeMin, hcnt, Option.map_some']
    · rw [hmin, hmin1, Nat.add_mul]; omega
    · intro hpos
      rw [hmin, hmin1, Nat.add_mul]; omega
  · intro i j h0 hij hj
    have hadj := subranges_ordered c h i j h0 hij hj
    refine ⟨hadj, ?_⟩
    rintro v ⟨_, h2, h3, _⟩
    omega

/-- A concrete instance of the amended C1: `[100, 200)` among three threads. -/
theorem partition_adjacent_ordered_witness :
    ValidCfg cfgThree ∧ rangeCnt cfgThree = some (spanOf cfgThree) ∧
    rangeMax cfgThree 0 = rangeMin cfgThree (0 + 1) ∧
    rangeMaxOf cfgThree (spanOf cfgThree) 0 ≤ rangeMinOf cfgThree (spanOf cfgThree) 2 :=
  have h : ValidCfg cfgThree := ⟨by decide, by decide, by decide⟩
  ⟨h, (partition_adjacent_ordered cfgThree h).1,
    ((partition_adjacent_ordered cfgThree h).2.1 0 (by decide) (by decide)).1,
    ((partition_adjacent_ordered cfgThree h).2.2 0 2 (by decide) (by decide) (by decide)).1⟩

/-! ## Start-point selection -/

theorem redraw_false_iff (lo hi p : Nat) : redraw lo hi p = false ↔ lo < p ∧ p < hi := by
  unfold redraw
  simp only [Bool.or_eq_false_iff, decide_eq_false_iff_not]
  omega

theorem selectLoop_inside (lo hi : Nat) :
    ∀ (fuel : Nat) (s : RandState) (p : Nat) (s' : RandState),
      selectLoop lo hi fuel s = Run.done (p, s') → lo < p ∧ p < hi := by
  intro fuel
  induction fuel with
  | zero => intro s p s' h; simp [selectLoop] at h
  | succ n ih =>
    intro s p s' h
    unfold selectLoop at h
    by_cases hr : redraw lo hi (rand_get s).1 = true
    · simp only [hr, if_true] at h
      exact ih _ _ _ h
    · simp only [hr] at h
      have hp : (rand_get s).1 = p := by
        simp only [Bool.false_eq_true, if_false, Run.done.injEq, Prod.mk.injEq] at h
        exact h.1
      rw [← hp]
      exact (redraw_false_iff _ _ _).1 (by simpa using hr)

theorem selectLoop_never (lo hi : Nat) (hall : ∀ p, redraw lo hi p = true) :
    ∀ (fuel : Nat) (s : RandState), selectLoop lo hi fuel s = Run.outOfFuel := by
  intro fuel
  induction fuel with
  | zero => intro s; rfl
  | succ n ih =>
    intro s
    unfold selectLoop
    simp only [hall, if_true]
    exact ih _

/-- C3: every value `p` that `primesNewMin(thrId)` returns lies strictly inside that thread's
sub-range: `rangeMin < p < rangeMax`, so `p` equals neither boundary; this holds for every
configuration, thread index, generator state and number of draws for which the call
returns. -/
theorem primesNewMin_strictly_inside (c : primegen_cfg_st) (thrId : Int) (fuel : Nat)
    (s : RandState) (p : Nat) (s' : RandState)
    (h : primesNewMin c thrId fuel s = Run.done (p, s')) :
    ∃ lo hi, rangeMin c thrId = some lo ∧ rangeMax c thrId = some hi ∧
      lo < p ∧ p < hi ∧ p ≠ lo ∧ p ≠ hi := by
  unfold primesNewMin at h
  cases hc : rangeCnt c with
  | none => simp [hc] at h
  | some cnt =>
    simp only [hc] at h
    have hin := selectLoop_inside _ _ _ _ _ _ h
    refine ⟨rangeMinOf c cnt thrId, rangeMaxOf c cnt thrId, ?_, ?_, hin.1, hin.2, ?_, ?_⟩
    · simp [rangeMin, hc]
    · simp [rangeMax, hc]
    · omega
    · omega

/-- A concrete instance of C3: with the default configuration, thread 0 and
`rand_y = 1` the second draw is accepted. -/
theorem primesNewMin_strictly_inside_witness :
    primesNewMin cfgDefault 0 2 seedOne
      = Run.done (140737488363648, { rand_x := 70368744181824, rand_y := 70368744181824 }) ∧
    ∃ lo hi, rangeMin cfgDefault 0 = some lo ∧ rangeMax cfgDefault 0 = some hi ∧
      lo < 140737488363648 ∧ 140737488363648 < hi ∧ 140737488363648 ≠ lo ∧
      140737488363648 ≠ hi :=
  ⟨by decide, primesNewMin_strictly_inside cfgDefault 0 2 seedOne 140737488363648
    { rand_x := 70368744181824, rand_y := 70368744181824 } (by decide)⟩

/-! ## Configurations for which the selection loop cannot end -/

/-- C6 as stated fails: with `primeMin = 10 ≥ primeMax = 5` and `T = 2` the unsigned
difference wraps, thread 0 gets the sub-range `(10, 2^63 + 7)`, the candidate `11` passes
the acceptance test, and from `rand_y = 1` the call returns at its first draw. -/
theorem inverted_range_accepts :
    cfgInverted.primeMin ≥ cfgInverted.primeMax ∧ 1 ≤ cfgInverted.thrCnt ∧
    rangeMin cfgInverted 0 = some 10 ∧ rangeMax cfgInverted 0 = some 9223372036854775815 ∧
    redraw 10 9223372036854775815 11 = false ∧
    primesNewMin cfgInverted 0 1 seedOne
      = Run.done (16777344, { rand_x := 8388672, rand_y := 8388672 }) := by
  decide

/-- C6 (amended): when the sub-range of a thread has width 0 (`rangeCnt = 0`), when
`primeMin = primeMax`, or when `primeMin ≥ primeMax` with a single thread (`T = 1`,
thread 0), the acceptance test of `primesNewMin` rejects every candidate, so the call does
not return for any generator state and any number of draws. -/
theorem degenerate_range_never_returns (c : primegen_cfg_st) (thrId : Int) (cnt : Nat)
    (hr : CfgInRange c) (hc : rangeCnt c = some cnt)
    (hd : cnt = 0 ∨ c.primeMin = c.primeMax ∨
      (c.primeMin ≥ c.primeMax ∧ c.thrCnt = 1 ∧ thrId = 0)) :
    (∀ p : Nat, redraw (rangeMinOf c cnt thrId) (rangeMaxOf c cnt thrId) p = true) ∧
    (∀ (fuel : Nat) (s : RandState), primesNewMin c thrId fuel s = Run.outOfFuel) := by
  have hall : ∀ p : Nat, redraw (rangeMinOf c cnt thrId) (rangeMaxOf c cnt thrId) p = true := by
    intro p
    have hle : rangeMaxOf c cnt thrId ≤ rangeMinOf c cnt thrId := by
      have hzero : cnt = 0 → rangeMaxOf c cnt thrId ≤ rangeMinOf c cnt thrId := by
        intro h0
        subst h0
        have := rangeMinOf_lt c 0 thrId
        unfold rangeMaxOf addU64 two64 at *
        omega
      rcases hd with h0 | heq | ⟨hge, hT, hi⟩
      · exact hzero h0
      · apply hzero
        obtain ⟨h1, _, _, _⟩ := hr
        have hsub : subU64 c.primeMax c.primeMin = 0 := by
          unfold subU64 two64 at *
          rw [heq]
          omega
        unfold rangeCnt at hc
        rw [hsub, Nat.zero_div] at hc
        by_cases hT0 : intToU64 c.thrCnt = 0
        · simp [hT0] at hc
        · simp only [hT0, if_false, Option.some.injEq] at hc
          exact hc.symm
      · obtain ⟨h1, h2, _, _⟩ := hr
        subst hi
        have hcnt : cnt = subU64 c.primeMax c.primeMin := by
          unfold rangeCnt at hc
          rw [hT] at hc
          have h1' : intToU64 1 = 1 := by decide
          rw [h1'] at hc
          simp only [Nat.one_ne_zero, if_false, Nat.div_one, Option.some.injEq] at hc
          exact hc.symm
        have h00 : intToU64 0 = 0 := by decide
        unfold rangeMaxOf rangeMinOf addU64 mulU64
        rw [hcnt, h00]
        unfold subU64 two64 at *
        omega
    unfold redraw
    simp only [Bool.or_eq_true, decide_eq_true_eq]
    omega
  refine ⟨hall, ?_⟩
  intro fuel s
  unfold primesNewMin
  simp only [hc]
  exact selectLoop_never _ _ hall fuel s

/-- A concrete instance of the amended C6: an inverted range with one thread. -/
theorem degenerate_range_never_returns_witness :
    CfgInRange cfgInvertedOne ∧ rangeCnt cfgInvertedOne = some 18446744073709551611 ∧
    cfgInvertedOne.primeMin ≥ cfgInvertedOne.primeMax ∧
    (∀ p : Nat, redraw (rangeMinOf cfgInvertedOne 18446744073709551611 0)
        (rangeMaxOf cfgInvertedOne 18446744073709551611 0) p = true) ∧
    (∀ (fuel : Nat) (s : RandState), primesNewMin cfgInvertedOne 0 fuel s = Run.outOfFuel) :=
  ⟨by decide, by decide, by decide,
    degenerate_range_never_returns cfgInvertedOne 0 18446744073709551611 (by decide)
      (by decide) (Or.inr (Or.inr ⟨by decide, by decide, rfl⟩))⟩

/-- C10: `primesNewMin` can accept a candidate only when `rangeCnt ≥ 2`; in particular,
whenever `rangeCnt = 1` (for example `primeMax - primeMin = T`) the acceptance test rejects
every candidate for every thread, and the call does not return for any generator state and
any number of draws, although the width is not 0. -/
theorem unit_width_never_returns (c : primegen_cfg_st) (thrId : Int) (cnt : Nat)
    (hc : rangeCnt c = some cnt) :
    (∀ p : Nat, redraw (rangeMinOf c cnt thrId) (rangeMaxOf c cnt thrId) p = false → 2 ≤ cnt) ∧
    (cnt = 1 →
      (∀ p : Nat, redraw (rangeMinOf c cnt thrId) (rangeMaxOf c cnt thrId) p = true) ∧
      (∀ (fuel : Nat) (s : RandState), primesNewMin c thrId fuel s = Run.outOfFuel)) := by
  have hlt : cnt < two64 := by
    unfold rangeCnt at hc
    by_cases h0 : intToU64 c.thrCnt = 0
    · simp [h0] at hc
    · simp only [h0, if_false, Option.some.injEq] at hc
      have h1 : subU64 c.primeMax c.primeMin < two64 := by
        unfold subU64 two64; omega
      have h2 := Nat.div_le_self (subU64 c.primeMax c.primeMin) (intToU64 c.thrCnt)
      omega
  have hwide : ∀ p : Nat,
      redraw (rangeMinOf c cnt thrId) (rangeMaxOf c cnt thrId) p = false → 2 ≤ cnt := by
    intro p hp
    have hin := (redraw_false_iff _ _ _).1 hp
    have hmin := rangeMinOf_lt c cnt thrId
    unfold rangeMaxOf addU64 two64 at *
    omega
  refine ⟨hwide, ?_⟩
  intro h1
  have hall : ∀ p : Nat, redraw (rangeMinOf c cnt thrId) (rangeMaxOf c cnt thrId) p = true := by
    intro p
    cases hp : redraw (rangeMinOf c cnt thrId) (rangeMaxOf c cnt thrId) p with
    | true => rfl
    | false => have := hwide p hp; omega
  refine ⟨hall, ?_⟩
  intro fuel s
  unfold primesNewMin
  simp only [hc]
  exact selectLoop_never _ _ hall fuel s

/-- A concrete instance of C10: two threads over `[0, 2)`. -/
theorem unit_width_never_returns_witness :
    rangeCnt cfgUnit = some 1 ∧ ValidCfg cfgUnit ∧
    (∀ (fuel : Nat) (s : RandState), primesNewMin cfgUnit 1 fuel s = Run.outOfFuel) :=
  ⟨by decide, ⟨by decide, by decide, by decide⟩,
    ((unit_width_never_returns cfgUnit 1 1 (by decide)).2 rfl).2⟩

/-! ## The random source -/

theorem two64_eq : two64 = 2 ^ 64 := by decide

theorem shlU64_xor (a b k : Nat) : shlU64 (a ^^^ b) k = shlU64 a k ^^^ shlU64 b k := by
  apply Nat.eq_of_testBit_eq
  intro i
  simp only [shlU64, two64_eq, Nat.testBit_mod_two_pow, Nat.testBit_xor, Nat.testBit_shiftLeft]
  cases decide (i < 64) <;> cases decide (i ≥ k) <;> simp

theorem shr_xor (a b k : Nat) : (a ^^^ b) >>> k = (a >>> k) ^^^ (b >>> k) := by
  apply Nat.eq_of_testBit_eq
  intro i
  simp

theorem mixY_xor (a b : Nat) : mixY (a ^^^ b) = mixY a ^^^ mixY b := by
  show (a ^^^ b ^^^ shlU64 (a ^^^ b) 23 ^^^ (a ^^^ b ^^^ shlU64 (a ^^^ b) 23) >>> 17)
      ^^^ (a ^^^ b ^^^ (a ^^^ b) >>> 26)
    = (a ^^^ shlU64 a 23 ^^^ (a ^^^ shlU64 a 23) >>> 17 ^^^ (a ^^^ a >>> 26))
      ^^^ (b ^^^ shlU64 b 23 ^^^ (b ^^^ shlU64 b 23) >>> 17 ^^^ (b ^^^ b >>> 26))
  rw [shlU64_xor, shr_xor a b 26]
  generalize shlU64 a 23 = a1
  generalize shlU64 b 23 = b1
  have h : a ^^^ b ^^^ (a1 ^^^ b1) = (a ^^^ a1) ^^^ (b ^^^ b1) := by ac_rfl
  rw [h, shr_xor]
  generalize (a ^^^ a1) >>> 17 = a2
  generalize (b ^^^ b1) >>> 17 = b2
  generalize a >>> 26 = a3
  generalize b >>> 26 = b3
  ac_rfl

theorem mixY_zero : mixY 0 = 0 := by decide

theorem mixY_columns : ∀ j : Fin 64, mixY (mixInverseColumns.getD j.val 0) = 2 ^ j.val := by
  decide

theorem xor_disjoint (x k q : Nat) (hx : x < 2 ^ k) : x ^^^ (2 ^ k * q) = 2 ^ k * q + x := by
  apply Nat.eq_of_testBit_eq
  intro j
  rw [Nat.testBit_xor, Nat.testBit_mul_pow_two_add q hx j, Nat.testBit_mul_pow_two]
  by_cases hj : j < k
  · have : ¬ (j ≥ k) := by omega
    simp [hj, this]
  · have hge : j ≥ k := by omega
    have hlt : x < 2 ^ j := Nat.lt_of_lt_of_le hx (Nat.pow_le_pow_right (by decide) hge)
    simp [hj, hge, Nat.testBit_lt_two_pow hlt]

theorem mixY_selectColumns (gs : List Nat) :
    ∀ (i m : Nat), (∀ j, j < gs.length → mixY (gs.getD j 0) = 2 ^ (i + j)) →
      mixY (selectColumns gs m) = 2 ^ i * (m % 2 ^ gs.length) := by
  induction gs with
  | nil => intro i m _; simp [selectColumns, mixY_zero, Nat.mod_one]
  | cons g gs ih =>
    intro i m h
    have hg : mixY g = 2 ^ i := by simpa using h 0 (by simp)
    have htail : ∀ j, j < gs.length → mixY (gs.getD j 0) = 2 ^ (i + 1 + j) := by
      intro j hj
      have := h (j + 1) (by simp; omega)
      simpa [Nat.add_assoc, Nat.add_comm 1 j] using this
    have hrec := ih (i + 1) (m / 2) htail
    have hsplit : m % 2 ^ (gs.length + 1) = m % 2 + 2 * (m / 2 % 2 ^ gs.length) := by
      rw [Nat.pow_succ, Nat.mul_comm (2 ^ gs.length) 2, Nat.mod_mul]
    rw [selectColumns, mixY_xor, hrec, List.length_cons, hsplit]
    have hpow : (2 : Nat) ^ (i + 1) = 2 ^ i * 2 := pow_succ 2 i
    have hlt2 : (2 : Nat) ^ i < 2 ^ (i + 1) := Nat.pow_lt_pow_right (by decide) (by omega)
    by_cases hb : m % 2 = 1
    · rw [if_pos hb, hg, xor_disjoint _ _ _ hlt2, hb, hpow]
      ring
    · have hb0 : m % 2 = 0 := by omega
      rw [if_neg hb, mixY_zero, Nat.zero_xor, hb0, hpow]
      ring

theorem selectColumns_lt (gs : List Nat) (h : ∀ g ∈ gs, g < 2 ^ 64) :
    ∀ m, selectColumns gs m < 2 ^ 64 := by
  induction gs with
  | nil => intro m; simp [selectColumns]
  | cons g gs ih =>
    intro m
    rw [selectColumns]
    apply Nat.xor_lt_two_pow
    · split
      · exact h g (by simp)
      · exact Nat.two_pow_pos 64
    · exact ih (fun x hx => h x (by simp [hx])) _

theorem mixY_surjective (m : Nat) (hm : m < two64) :
    selectColumns mixInverseColumns m < two64 ∧ mixY (selectColumns mixInverseColumns m) = m := by
  constructor
  · rw [two64_eq]
    exact selectColumns_lt _ (by decide) m
  · have hcols : ∀ j, j < mixInverseColumns.length →
        mixY (mixInverseColumns.getD j 0) = 2 ^ (0 + j) := by
      intro j hj
      have := mixY_columns ⟨j, hj⟩
      simpa using this
    have := mixY_selectColumns mixInverseColumns 0 m hcols
    rw [this]
    have hl : mixInverseColumns.length = 64 := by decide
    rw [hl, Nat.pow_zero, Nat.one_mul, ← two64_eq, Nat.mod_eq_of_lt hm]

theorem rand_get_eq_mixY (s : RandState) :
    rand_get s = (addU64 (mixY s.rand_y) (mixY s.rand_y),
      { rand_x := mixY s.rand_y, rand_y := mixY s.rand_y }) := rfl

theorem rand_get_even (s : RandState) : (rand_get s).1 < two64 ∧ (rand_get s).1 % 2 = 0 := by
  rw [rand_get_eq_mixY]
  unfold addU64 two64
  constructor <;> omega

theorem rand_get_reaches_even (v : Nat) (hv : v < two64) (he : v % 2 = 0) :
    ∃ s : RandState, s.rand_x < two64 ∧ s.rand_y < two64 ∧
      rand_get s = (v, { rand_x := v / 2, rand_y := v / 2 }) := by
  have hm : v / 2 < two64 := by unfold two64 at *; omega
  obtain ⟨hlt, hmix⟩ := mixY_surjective (v / 2) hm
  refine ⟨{ rand_x := selectColumns mixInverseColumns (v / 2),
            rand_y := selectColumns mixInverseColumns (v / 2) }, hlt, hlt, ?_⟩
  rw [rand_get_eq_mixY]
  simp only [hmix]
  have : addU64 (v / 2) (v / 2) = v := by
    unfold addU64 two64 at *
    omega
  rw [this]

/-- C8 as stated fails: from the state `x = 1`, `y = 0` the claimed computation (shifting
the incoming `x`) yields `16777346` and the state word `8388673`, while `rand_get` first
overwrites `x` with `y` and returns `0`, leaving both state words `0`. -/
theorem rand_get_ignores_x :
    rand_get seedXOnly = (0, { rand_x := 0, rand_y := 0 }) ∧
    rand_get_asClaimed seedXOnly = (16777346, { rand_x := 8388673, rand_y := 8388673 }) ∧
    rand_get seedXOnly ≠ rand_get_asClaimed seedXOnly := by
  decide

/-- C8 (amended): for every generator state `(x, y)`, `rand_get` first overwrites `x` with
`y`, then computes `n = y xor (y << 23)`, `n = n xor (n >> 17)`, `n = n xor y xor (y >> 26)`
(all on 64 bits), stores `n` in both state words and returns `new x + new y = 2 n` modulo
`2^64`; the incoming `x` is not used. The computation is the claimed one applied to the
state `(y, y)`, so it agrees with the claim whenever `x = y`, which holds in every state
left by a previous call. -/
theorem rand_get_mixes_y (s : RandState) :
    rand_get s = rand_get_asClaimed { rand_x := s.rand_y, rand_y := s.rand_y } ∧
    (rand_get s).2.rand_x = mixY s.rand_y ∧
    (rand_get s).2.rand_y = (rand_get s).2.rand_x ∧
    (rand_get s).1 = (2 * mixY s.rand_y) % two64 ∧
    (∀ x : Nat, rand_get { rand_x := x, rand_y := s.rand_y } = rand_get s) ∧
    rand_get (rand_get s).2 = rand_get_asClaimed (rand_get s).2 := by
  refine ⟨?_, rfl, rfl, ?_, fun _ => rfl, ?_⟩
  · simp only [rand_get, rand_get_asClaimed, Nat.xor_assoc]
  · rw [rand_get_eq_mixY]
    simp only [addU64]
    congr 1
    omega
  · simp only [rand_get, rand_get_asClaimed, Nat.xor_assoc]

/-- C9 as stated fails: the odd value `4294967297` is a 64-bit value lying strictly inside
the sub-range of thread 0 under the default configuration, and no generator state makes
`rand_get` return it. -/
theorem rand_get_misses_odd :
    4294967297 < two64 ∧
    rangeMin cfgDefault 0 = some 4294967295 ∧
    rangeMax cfgDefault 0 = some 9223372039002259455 ∧
    (4294967295 : Nat) < 4294967297 ∧ (4294967297 : Nat) < 9223372039002259455 ∧
    ¬ ∃ s : RandState, (rand_get s).1 = 4294967297 := by
  refine ⟨by decide, by decide, by decide, by decide, by decide, ?_⟩
  rintro ⟨s, hs⟩
  have := (rand_get_even s).2
  omega

/-- C9 (amended): `rand_get` ranges over exactly the even 64-bit values: every value it
returns is even and below `2^64`, and for every even `v < 2^64` there is a generator state
of two 64-bit words from which `rand_get` returns `v`; so every even value strictly inside
a sub-range can be drawn as a start point (accepted at the first draw), and no odd value is
ever returned by `primesNewMin`. -/
theorem rand_get_ranges_over_even :
    (∀ s : RandState, (rand_get s).1 < two64 ∧ (rand_get s).1 % 2 = 0) ∧
    (∀ v : Nat, v < two64 → v % 2 = 0 →
      ∃ s : RandState, s.rand_x < two64 ∧ s.rand_y < two64 ∧ (rand_get s).1 = v) ∧
    (∀ (c : primegen_cfg_st) (thrId : Int) (cnt v : Nat), rangeCnt c = some cnt →
      v % 2 = 0 → rangeMinOf c cnt thrId < v → v < rangeMaxOf c cnt thrId →
      ∃ s s' : RandState, s.rand_x < two64 ∧ s.rand_y < two64 ∧
        primesNewMin c thrId 1 s = Run.done (v, s')) ∧
    (∀ (c : primegen_cfg_st) (thrId : Int) (fuel : Nat) (s s' : RandState) (p : Nat),
      primesNewMin c thrId fuel s = Run.done (p, s') → p % 2 = 0) := by
  refine ⟨rand_get_even, ?_, ?_, ?_⟩
  · intro v hv he
    obtain ⟨s, h1, h2, h3⟩ := rand_get_reaches_even v hv he
    exact ⟨s, h1, h2, by rw [h3]⟩
  · intro c thrId cnt v hc he hlo hhi
    have hv : v < two64 := Nat.lt_trans hhi (rangeMaxOf_lt c cnt thrId)
    obtain ⟨s, h1, h2, h3⟩ := rand_get_reaches_even v hv he
    refine ⟨s, { rand_x := v / 2, rand_y := v / 2 }, h1, h2, ?_⟩
    have hacc : redraw (rangeMinOf c cnt thrId) (rangeMaxOf c cnt thrId) v = false :=
      (redraw_false_iff _ _ _).2 ⟨hlo, hhi⟩
    unfold primesNewMin
    simp only [hc]
    unfold selectLoop
    simp only [h3, hacc, Bool.false_eq_true, if_false]
  · intro c thrId fuel s s' p h
    unfold primesNewMin at h
    cases hc : rangeCnt c with
    | none => simp [hc] at h
    | some cnt =>
      simp only [hc] at h
      clear hc
      induction fuel generalizing s with
      | zero => simp [selectLoop] at h
      | succ n ih =>
        unfold selectLoop at h
        by_cases hr : redraw (rangeMinOf c cnt thrId) (rangeMaxOf c cnt thrId) (rand_get s).1 = true
        · simp only [hr, if_true] at h
          exact ih _ h
        · simp only [hr, Bool.false_eq_true, if_false, Run.done.injEq, Prod.mk.injEq] at h
          rw [← h.1]
          exact (rand_get_even s).2

/-- A concrete instance of the amended C9: the even value `4294967298` is returned from
some state of two 64-bit words. -/
theorem rand_get_ranges_over_even_witness :
    4294967298 < two64 ∧ 4294967298 % 2 = 0 ∧
    ∃ s : RandState, s.rand_x < two64 ∧ s.rand_y < two64 ∧ (rand_get s).1 = 4294967298 :=
  ⟨by decide, by decide, rand_get_ranges_over_even.2.1 4294967298 (by decide) (by decide)⟩

/-! ## Batch file naming -/

theorem formatItems_fName (dirOut : String) (first : Nat) :
    formatItems fNameFormat [FmtArg.str dirOut, FmtArg.u64 first]
      = some ("./" ++ fName_asClaimed dirOut first) := by
  simp only [fNameFormat, formatItems, Option.map_some', fName_asClaimed, String.append_assoc,
    String.append_empty]

theorem fName_eq (dirOut : String) (first : Nat) :
    fName dirOut first =
      if ("./" ++ fName_asClaimed dirOut first).utf8ByteSize < 256
      then some ("./" ++ fName_asClaimed dirOut first) else none := by
  unfold fName sprintf
  rw [formatItems_fName]

/-- C4 as stated fails: for the output directory `out` and first batch element `2` the name
built by `thrRun` is `./out/2.primes.u64.bin`, which has `./` before the directory, not
`out/2.primes.u64.bin`. -/
theorem fName_starts_with_dot_slash :
    fName "out" 2 = some "./out/2.primes.u64.bin" ∧
    fName_asClaimed "out" 2 = "out/2.primes.u64.bin" ∧
    fName "out" 2 ≠ some (fName_asClaimed "out" 2) := by
  decide

/-- C4 (amended): for every output directory `outDir` and every batch whose first element
is `f`, the path that a pass of `thrRun` opens is exactly `./` followed by `outDir`, `/`,
the unsigned decimal representation of `f` and `.primes.u64.bin` (nothing after the
suffix), provided this text is shorter than the 256 bytes of the buffer `fName`; the name
is built whenever it fits. -/
theorem thrRun_opens_dot_slash_path (c : primegen_cfg_st) (generate : Int → Nat → List Nat)
    (fopenOk : String → Bool) (thrNum : Int) (fuel : Nat) (s s' : RandState)
    (out : BatchOutcome)
    (h : thrRunBody c generate fopenOk thrNum fuel s = Run.done (out, s')) :
    ∃ start first rest,
      primesNewMin c thrNum fuel s = Run.done (start, s') ∧
      generate c.thrPrimesPerLoop start = first :: rest ∧
      ("./" ++ c.dirOut ++ "/" ++ Nat.repr first ++ ".primes.u64.bin").utf8ByteSize < 256 ∧
      fName c.dirOut first
        = some ("./" ++ c.dirOut ++ "/" ++ Nat.repr first ++ ".primes.u64.bin") ∧
      out.path = "./" ++ c.dirOut ++ "/" ++ Nat.repr first ++ ".primes.u64.bin" := by
  have hshape : ∀ first : Nat,
      "./" ++ fName_asClaimed c.dirOut first
        = "./" ++ c.dirOut ++ "/" ++ Nat.repr first ++ ".primes.u64.bin" := by
    intro first
    simp only [fName_asClaimed, String.append_assoc]
  unfold thrRunBody at h
  cases hp : primesNewMin c thrNum fuel s with
  | outOfFuel => simp [hp] at h
  | undefined => simp [hp] at h
  | done r =>
    obtain ⟨start, s1⟩ := r
    simp only [hp] at h
    cases hg : generate c.thrPrimesPerLoop start with
    | nil => simp [hg] at h
    | cons first rest =>
      simp only [hg] at h
      have hname := fName_eq c.dirOut first
      rw [hshape] at hname
      by_cases hfit :
          ("./" ++ c.dirOut ++ "/" ++ Nat.repr first ++ ".primes.u64.bin").utf8ByteSize < 256
      · rw [if_pos hfit] at hname
        simp only [hname] at h
        by_cases hopen :
            fopenOk ("./" ++ c.dirOut ++ "/" ++ Nat.repr first ++ ".primes.u64.bin") = true
        · simp only [hopen, if_true, Run.done.injEq, Prod.mk.injEq] at h
          obtain ⟨h1, h2⟩ := h
          subst h1 h2
          exact ⟨start, first, rest, rfl, hg, hfit, hname, rfl⟩
        · simp only [hopen, Bool.false_eq_true, if_false, Run.done.injEq, Prod.mk.injEq] at h
          obtain ⟨h1, h2⟩ := h
          subst h1 h2
          exact ⟨start, first, rest, rfl, hg, hfit, hname, rfl⟩
      · rw [if_neg hfit] at hname
        simp [hname] at h

/-- A concrete instance of the amended C4: thread 0 of two over `[0, 52)` draws the
start point `24` and opens the file of the batch that begins with `29`. -/
theorem thrRun_opens_dot_slash_path_witness :
    thrRunBody cfgTwo primesBelow60 (fun _ => true) 0 1 seed24
      = Run.done (BatchOutcome.written "./out.primes.64/29.primes.u64.bin"
          [29, 31, 37, 41, 43, 47, 53, 59], { rand_x := 12, rand_y := 12 }) ∧
    ∃ start first rest,
      primesNewMin cfgTwo 0 1 seed24 = Run.done (start, { rand_x := 12, rand_y := 12 }) ∧
      primesBelow60 cfgTwo.thrPrimesPerLoop start = first :: rest ∧
      ("./" ++ cfgTwo.dirOut ++ "/" ++ Nat.repr first ++ ".primes.u64.bin").utf8ByteSize < 256 ∧
      fName cfgTwo.dirOut first
        = some ("./" ++ cfgTwo.dirOut ++ "/" ++ Nat.repr first ++ ".primes.u64.bin") ∧
      (BatchOutcome.written "./out.primes.64/29.primes.u64.bin"
          [29, 31, 37, 41, 43, 47, 53, 59]).path
        = "./" ++ cfgTwo.dirOut ++ "/" ++ Nat.repr first ++ ".primes.u64.bin" :=
  ⟨by decide,
    thrRun_opens_dot_slash_path cfgTwo primesBelow60 (fun _ => true) 0 1 seed24
      { rand_x := 12, rand_y := 12 }
      (BatchOutcome.written "./out.primes.64/29.primes.u64.bin"
        [29, 31, 37, 41, 43, 47, 53, 59]) (by decide)⟩

/-! ## First primes of batches requested by different threads -/

theorem firstPrimeFrom_spec (n : Nat) : n ≤ firstPrimeFrom n ∧ (firstPrimeFrom n).Prime :=
  Nat.find_spec (Nat.exists_infinite_primes n)

theorem firstPrimeFrom_le (n q : Nat) (hn : n ≤ q) (hq : q.Prime) : firstPrimeFrom n ≤ q :=
  Nat.find_min' (Nat.exists_infinite_primes n) ⟨hn, hq⟩

theorem firstPrimeFrom_mono (a b : Nat) (hab : a ≤ b) : firstPrimeFrom a ≤ firstPrimeFrom b :=
  firstPrimeFrom_le a _ (Nat.le_trans hab (firstPrimeFrom_spec b).1) (firstPrimeFrom_spec b).2

theorem firstPrimeFrom_ne_iff (a b : Nat) (hab : a ≤ b) :
    firstPrimeFrom a ≠ firstPrimeFrom b ↔ ∃ q : Nat, q.Prime ∧ a ≤ q ∧ q < b := by
  constructor
  · intro hne
    have hmono := firstPrimeFrom_mono a b hab
    refine ⟨firstPrimeFrom a, (firstPrimeFrom_spec a).2, (firstPrimeFrom_spec a).1, ?_⟩
    by_contra hge
    have := firstPrimeFrom_le b (firstPrimeFrom a) (by omega) (firstPrimeFrom_spec a).2
    omega
  · rintro ⟨q, hq, haq, hqb⟩ heq
    have h1 := firstPrimeFrom_le a q haq hq
    have h2 := (firstPrimeFrom_spec b).1
    omega

theorem firstPrimeFrom_24 : firstPrimeFrom 24 = 29 := by
  have h1 := firstPrimeFrom_le 24 29 (by decide) (by norm_num)
  have h2 := firstPrimeFrom_spec 24
  generalize firstPrimeFrom 24 = q at h1 h2
  obtain ⟨h3, h4⟩ := h2
  interval_cases q <;> first | rfl | (exfalso; revert h4; norm_num)

theorem firstPrimeFrom_28 : firstPrimeFrom 28 = 29 := by
  have h1 := firstPrimeFrom_le 28 29 (by decide) (by norm_num)
  have h2 := firstPrimeFrom_spec 28
  generalize firstPrimeFrom 28 = q at h1 h2
  obtain ⟨h3, h4⟩ := h2
  interval_cases q <;> first | rfl | (exfalso; revert h4; norm_num)

/-- C7 as stated fails: with `primeMin = 0 < primeMax = 52` and `T = 2` (width 26) thread 0
accepts the start point `24` and thread 1 accepts the start point `28`; the smallest prime
`≥ 24` and the smallest prime `≥ 28` are both `29`, and both passes of `thrRun` open the
same path. -/
theorem distinct_threads_share_first_prime :
    ValidCfg cfgTwo ∧ 2 ≤ cfgTwo.thrCnt ∧ rangeCnt cfgTwo = some 26 ∧
    primesNewMin cfgTwo 0 1 seed24 = Run.done (24, { rand_x := 12, rand_y := 12 }) ∧
    primesNewMin cfgTwo 1 1 seed28 = Run.done (28, { rand_x := 14, rand_y := 14 }) ∧
    firstPrimeFrom 24 = 29 ∧ firstPrimeFrom 28 = 29 ∧
    thrRunBody cfgTwo primesBelow60 (fun _ => true) 0 1 seed24
      = Run.done (BatchOutcome.written "./out.primes.64/29.primes.u64.bin"
          [29, 31, 37, 41, 43, 47, 53, 59], { rand_x := 12, rand_y := 12 }) ∧
    thrRunBody cfgTwo primesBelow60 (fun _ => true) 1 1 seed28
      = Run.done (BatchOutcome.written "./out.primes.64/29.primes.u64.bin"
          [29, 31, 37, 41, 43, 47, 53, 59], { rand_x := 14, rand_y := 14 }) :=
  ⟨⟨by decide, by decide, by decide⟩, by decide, by decide, by decide, by decide,
    firstPrimeFrom_24, firstPrimeFrom_28, by decide, by decide⟩

/-- C7 (amended): under a valid partitioning, for thread indices `i < j` every start point
`p_i` accepted for thread `i` is smaller than every start point `p_j` accepted for thread
`j`, so the smallest prime `≥ p_i` is at most the smallest prime `≥ p_j`; the two first
primes differ exactly when some prime `q` satisfies `p_i ≤ q < p_j`, and when there is no
such prime the two batches have the same first prime and the same file name. -/
theorem distinct_threads_start_points (c : primegen_cfg_st) (h : ValidCfg c) (i j : Int)
    (h0 : 0 ≤ i) (hij : i < j) (hj : j < c.thrCnt) (pi pj : Nat)
    (hpi : redraw (rangeMinOf c (spanOf c) i) (rangeMaxOf c (spanOf c) i) pi = false)
    (hpj : redraw (rangeMinOf c (spanOf c) j) (rangeMaxOf c (spanOf c) j) pj = false) :
    rangeCnt c = some (spanOf c) ∧ pi < pj ∧
    firstPrimeFrom pi ≤ firstPrimeFrom pj ∧
    (firstPrimeFrom pi ≠ firstPrimeFrom pj ↔ ∃ q : Nat, q.Prime ∧ pi ≤ q ∧ q < pj) ∧
    ((¬ ∃ q : Nat, q.Prime ∧ pi ≤ q ∧ q < pj) →
      firstPrimeFrom pi = firstPrimeFrom pj ∧
      fName c.dirOut (firstPrimeFrom pi) = fName c.dirOut (firstPrimeFrom pj)) := by
  have hadj := subranges_ordered c h i j h0 hij hj
  have h1 := (redraw_false_iff _ _ _).1 hpi
  have h2 := (redraw_false_iff _ _ _).1 hpj
  have hlt : pi < pj := by omega
  have hiff := firstPrimeFrom_ne_iff pi pj (Nat.le_of_lt hlt)
  refine ⟨rangeCnt_valid c h, hlt, firstPrimeFrom_mono pi pj (Nat.le_of_lt hlt), hiff, ?_⟩
  intro hno
  have heq : firstPrimeFrom pi = firstPrimeFrom pj := by
    by_contra hne
    exact hno (hiff.1 hne)
  exact ⟨heq, by rw [heq]⟩

/-- A concrete instance of the amended C7: start points `24` and `28` of the two
threads over `[0, 52)`. -/
theorem distinct_threads_start_points_witness :
    ValidCfg cfgTwo ∧ spanOf cfgTwo = 26 ∧ 24 < 28 ∧
    firstPrimeFrom 24 ≤ firstPrimeFrom 28 ∧
    (firstPrimeFrom 24 ≠ firstPrimeFrom 28 ↔ ∃ q : Nat, q.Prime ∧ 24 ≤ q ∧ q < 28) :=
  have h : ValidCfg cfgTwo := ⟨by decide, by decide, by decide⟩
  have w := distinct_threads_start_points cfgTwo h 0 1 (by decide) (by decide) (by decide)
    24 28 (by decide) (by decide)
  ⟨h, by decide, w.2.1, w.2.2.1, w.2.2.2.1⟩

/-! ## Command line and start-up -/

/-- C5 as stated fails: the command lines `-b 10 -e 5` (`primeMax ≤ primeMin`) and
`-b 0 -e 1 -t 2` (width 0) pass `cliOptsToCfg` unchanged, and `main` creates both worker
threads instead of exiting with status 1. -/
theorem degenerate_cfg_is_spawned :
    cliOptsToCfg decimalValue (fun s => (decimalValue s : Int)) optsInverted 0 cfgDefault
      = CliResult.cfg cfgInverted ∧
    cfgInverted.primeMax ≤ cfgInverted.primeMin ∧
    mainUpToSpawn envAllOk decimalValue (fun s => (decimalValue s : Int)) optsInverted 0
      = MainResult.spawned [0, 1] ∧
    cliOptsToCfg decimalValue (fun s => (decimalValue s : Int)) optsNarrow 0 cfgDefault
      = CliResult.cfg cfgNarrow ∧
    rangeCnt cfgNarrow = some 0 ∧
    mainUpToSpawn envAllOk decimalValue (fun s => (decimalValue s : Int)) optsNarrow 0
      = MainResult.spawned [0, 1] := by
  decide

theorem help_not_setting : ('h' : Char) ∉ settingOpts := by decide

theorem cliOptsSwitch_spec (strtoull : String → Nat) (strtol : String → Int)
    (r : GetoptResult) (c : primegen_cfg_st) (e : Bool) :
    (cliOptsSwitch strtoull strtol r c e = none ∧ r.opt ∉ settingOpts) ∨
    (∃ c1 e1, cliOptsSwitch strtoull strtol r c e = some (c1, e1) ∧
      (e1 = true ↔ e = true ∨ r.opt ∉ settingOpts)) := by
  unfold cliOptsSwitch
  by_cases hh : r.opt = 'h'
  · left
    exact ⟨by simp [hh], by rw [hh]; exact help_not_setting⟩
  · right
    rw [if_neg hh]
    by_cases ho : r.opt = 'o'
    · rw [if_pos ho]
      exact ⟨_, e, rfl, by simp [ho, settingOpts]⟩
    rw [if_neg ho]
    by_cases hb : r.opt = 'b'
    · rw [if_pos hb]
      exact ⟨_, e, rfl, by simp [hb, settingOpts]⟩
    rw [if_neg hb]
    by_cases he : r.opt = 'e'
    · rw [if_pos he]
      exact ⟨_, e, rfl, by simp [he, settingOpts]⟩
    rw [if_neg he]
    by_cases ht : r.opt = 't'
    · rw [if_pos ht]
      exact ⟨_, e, rfl, by simp [ht, settingOpts]⟩
    rw [if_neg ht]
    by_cases hl : r.opt = 'l'
    · rw [if_pos hl]
      exact ⟨_, e, rfl, by simp [hl, settingOpts]⟩
    rw [if_neg hl]
    by_cases hp : r.opt = 'p'
    · rw [if_pos hp]
      exact ⟨_, e, rfl, by simp [hp, settingOpts]⟩
    · rw [if_neg hp]
      exact ⟨c, true, rfl, by simp [settingOpts, ho, hb, he, ht, hl, hp]⟩

theorem cliOptsLoop_spec (strtoull : String → Nat) (strtol : String → Int)
    (opts : List GetoptResult) :
    ∀ (c : primegen_cfg_st) (e : Bool),
      (cliOptsLoop strtoull strtol opts c e = none ∧ ∃ r ∈ opts, r.opt ∉ settingOpts) ∨
      (∃ c1 e1, cliOptsLoop strtoull strtol opts c e = some (c1, e1) ∧
        (e1 = true ↔ e = true ∨ ∃ r ∈ opts, r.opt ∉ settingOpts)) := by
  induction opts with
  | nil => intro c e; right; exact ⟨c, e, rfl, by simp⟩
  | cons r rs ih =>
    intro c e
    rcases cliOptsSwitch_spec strtoull strtol r c e with ⟨hs, hr⟩ | ⟨c1, e1, hs, hr⟩
    · left
      exact ⟨by simp [cliOptsLoop, hs], r, by simp, hr⟩
    · rcases ih c1 e1 with ⟨hl, r2, hr2, hbad⟩ | ⟨c2, e2, hl, hiff⟩
      · left
        exact ⟨by simp [cliOptsLoop, hs, hl], r2, by simp [hr2], hbad⟩
      · right
        refine ⟨c2, e2, by simp [cliOptsLoop, hs, hl], ?_⟩
        rw [hiff, hr]
        simp only [List.mem_cons, exists_eq_or_imp]
        tauto

theorem spawnWorkers_all (env : MainEnv) (hok : ∀ i, env.createOk i = true) :
    ∀ (ids done : List Int), spawnWorkers env ids done = MainResult.spawned (done ++ ids) := by
  intro ids
  induction ids with
  | nil => intro done; simp [spawnWorkers]
  | cons i rest ih =>
    intro done
    simp [spawnWorkers, hok, ih]

theorem cliOptsSwitch_fields (strtoull : String → Nat) (strtol : String → Int)
    (r : GetoptResult) (c c1 : primegen_cfg_st) (e e1 : Bool)
    (h : cliOptsSwitch strtoull strtol r c e = some (c1, e1)) :
    c1.dirOut = (if r.opt = 'o' then r.optarg else c.dirOut) ∧
    c1.primeMin = (if r.opt = 'b' then strtoull r.optarg % two64 else c.primeMin) ∧
    c1.primeMax = (if r.opt = 'e' then strtoull r.optarg % two64 else c.primeMax) ∧
    c1.thrCnt = (if r.opt = 't' then wrapInt32 (strtol r.optarg) else c.thrCnt) ∧
    c1.thrPrimeLoops
      = (if r.opt = 'l' then wrapInt32 (strtol r.optarg) else c.thrPrimeLoops) ∧
    c1.thrPrimesPerLoop
      = (if r.opt = 'p' then wrapInt32 (strtol r.optarg) else c.thrPrimesPerLoop) := by
  unfold cliOptsSwitch at h
  by_cases hh : r.opt = 'h'
  · rw [if_pos hh] at h; cases h
  rw [if_neg hh] at h
  by_cases ho : r.opt = 'o'
  · rw [if_pos ho] at h
    simp only [Option.some.injEq, Prod.mk.injEq] at h
    obtain ⟨rfl, _⟩ := h
    simp [ho]
  rw [if_neg ho] at h
  by_cases hb : r.opt = 'b'
  · rw [if_pos hb] at h
    simp only [Option.some.injEq, Prod.mk.injEq] at h
    obtain ⟨rfl, _⟩ := h
    simp [hb]
  rw [if_neg hb] at h
  by_cases he : r.opt = 'e'
  · rw [if_pos he] at h
    simp only [Option.some.injEq, Prod.mk.injEq] at h
    obtain ⟨rfl, _⟩ := h
    simp [he]
  rw [if_neg he] at h
  by_cases ht : r.opt = 't'
  · rw [if_pos ht] at h
    simp only [Option.some.injEq, Prod.mk.injEq] at h
    obtain ⟨rfl, _⟩ := h
    simp [ht]
  rw [if_neg ht] at h
  by_cases hl : r.opt = 'l'
  · rw [if_pos hl] at h
    simp only [Option.some.injEq, Prod.mk.injEq] at h
    obtain ⟨rfl, _⟩ := h
    simp [hl]
  rw [if_neg hl] at h
  by_cases hp : r.opt = 'p'
  · rw [if_pos hp] at h
    simp only [Option.some.injEq, Prod.mk.injEq] at h
    obtain ⟨rfl, _⟩ := h
    simp [hp]
  · rw [if_neg hp] at h
    simp only [Option.some.injEq, Prod.mk.injEq] at h
    obtain ⟨rfl, _⟩ := h
    simp [ho, hb, he, ht, hl, hp]

theorem lastArg_step {α : Type} (ch : Char) (conv : String → α) (r : GetoptResult)
    (rs : List GetoptResult) (d x y : α)
    (hy : y = if r.opt = ch then conv r.optarg else d)
    (hx : x = ((lastArg ch rs).map conv).getD y) :
    x = ((lastArg ch (r :: rs)).map conv).getD d := by
  rw [hx, hy]
  cases hl : lastArg ch rs with
  | some a => simp [lastArg, hl]
  | none =>
    by_cases hc : r.opt = ch
    · simp [lastArg, hl, hc]
    · simp [lastArg, hl, hc]

theorem cliOptsLoop_fields (strtoull : String → Nat) (strtol : String → Int)
    (opts : List GetoptResult) :
    ∀ (c c1 : primegen_cfg_st) (e e1 : Bool),
      cliOptsLoop strtoull strtol opts c e = some (c1, e1) →
      c1.dirOut = ((lastArg 'o' opts).map fun a => a).getD c.dirOut ∧
      c1.primeMin = ((lastArg 'b' opts).map fun a => strtoull a % two64).getD c.primeMin ∧
      c1.primeMax = ((lastArg 'e' opts).map fun a => strtoull a % two64).getD c.primeMax ∧
      c1.thrCnt = ((lastArg 't' opts).map fun a => wrapInt32 (strtol a)).getD c.thrCnt ∧
      c1.thrPrimeLoops
        = ((lastArg 'l' opts).map fun a => wrapInt32 (strtol a)).getD c.thrPrimeLoops ∧
      c1.thrPrimesPerLoop
        = ((lastArg 'p' opts).map fun a => wrapInt32 (strtol a)).getD c.thrPrimesPerLoop := by
  induction opts with
  | nil =>
    intro c c1 e e1 h
    simp only [cliOptsLoop, Option.some.injEq, Prod.mk.injEq] at h
    obtain ⟨rfl, _⟩ := h
    simp [lastArg]
  | cons r rs ih =>
    intro c c1 e e1 h
    unfold cliOptsLoop at h
    cases hs : cliOptsSwitch strtoull strtol r c e with
    | none => simp [hs] at h
    | some pr =>
      obtain ⟨c2, e2⟩ := pr
      simp only [hs] at h
      obtain ⟨f1, f2, f3, f4, f5, f6⟩ := cliOptsSwitch_fields strtoull strtol r c c2 e e2 hs
      obtain ⟨g1, g2, g3, g4, g5, g6⟩ := ih c2 c1 e2 e1 h
      exact ⟨lastArg_step _ _ r rs _ _ _ f1 g1, lastArg_step _ _ r rs _ _ _ f2 g2,
        lastArg_step _ _ r rs _ _ _ f3 g3, lastArg_step _ _ r rs _ _ _ f4 g4,
        lastArg_step _ _ r rs _ _ _ f5 g5, lastArg_step _ _ r rs _ _ _ f6 g6⟩

theorem cliOptsToCfg_fields (strtoull : String → Nat) (strtol : String → Int)
    (opts : List GetoptResult) (extraArgs : Nat) (c : primegen_cfg_st)
    (h : cliOptsToCfg strtoull strtol opts extraArgs cfgDefault = CliResult.cfg c) :
    c.dirOut = ((lastArg 'o' opts).map fun a => a).getD cfgDefault.dirOut ∧
    c.primeMin
      = ((lastArg 'b' opts).map fun a => strtoull a % two64).getD cfgDefault.primeMin ∧
    c.primeMax
      = ((lastArg 'e' opts).map fun a => strtoull a % two64).getD cfgDefault.primeMax ∧
    c.thrCnt = ((lastArg 't' opts).map fun a => wrapInt32 (strtol a)).getD cfgDefault.thrCnt ∧
    c.thrPrimeLoops
      = ((lastArg 'l' opts).map fun a => wrapInt32 (strtol a)).getD cfgDefault.thrPrimeLoops ∧
    c.thrPrimesPerLoop
      = ((lastArg 'p' opts).map fun a => wrapInt32 (strtol a)).getD
          cfgDefault.thrPrimesPerLoop := by
  unfold cliOptsToCfg at h
  cases hl : cliOptsLoop strtoull strtol opts cfgDefault false with
  | none => simp [hl] at h
  | some pr =>
    obtain ⟨c1, e1⟩ := pr
    simp only [hl] at h
    split at h
    · cases h
    · simp only [CliResult.cfg.injEq] at h
      subst h
      exact cliOptsLoop_fields strtoull strtol opts cfgDefault c1 false e1 hl

theorem cliOptsToCfg_exit_iff (strtoull : String → Nat) (strtol : String → Int)
    (opts : List GetoptResult) (extraArgs : Nat) :
    cliOptsToCfg strtoull strtol opts extraArgs cfgDefault = CliResult.exit 1 ↔
      CliError opts extraArgs := by
  unfold cliOptsToCfg CliError
  rcases cliOptsLoop_spec strtoull strtol opts cfgDefault false with
    ⟨hl, hbad⟩ | ⟨c1, e1, hl, he⟩
  · simp only [hl, true_iff]
    exact Or.inr hbad
  · simp only [hl]
    cases e1 with
    | true =>
      have := he.1 rfl
      simp only [Bool.true_or, if_true, true_iff]
      rcases this with h | h
      · cases h
      · exact Or.inr h
    | false =>
      have hnone : ¬ ∃ r ∈ opts, r.opt ∉ settingOpts := by
        intro hex
        have := he.2 (Or.inr hex)
        cases this
      by_cases hx : 0 < extraArgs
      · simp [hx]
      · simp only [Bool.false_or, decide_eq_true_eq, hx, if_false]
        constructor
        · intro h; cases h
        · rintro (h | h)
          · exact h.elim
          · exact absurd h hnone

theorem cliOptsToCfg_total (strtoull : String → Nat) (strtol : String → Int)
    (opts : List GetoptResult) (extraArgs : Nat) :
    cliOptsToCfg strtoull strtol opts extraArgs cfgDefault = CliResult.exit 1 ∨
    ∃ c, cliOptsToCfg strtoull strtol opts extraArgs cfgDefault = CliResult.cfg c := by
  unfold cliOptsToCfg
  cases cliOptsLoop strtoull strtol opts cfgDefault false with
  | none => exact Or.inl rfl
  | some pr =>
    obtain ⟨c1, e1⟩ := pr
    by_cases hc : (e1 || decide (0 < extraArgs)) = true
    · left; simp only [hc, if_true]
    · right; exact ⟨c1, by simp only [hc, if_false]; simp⟩

theorem spawnWorkers_keeps (env : MainEnv) :
    ∀ (ids done ws : List Int) (code : Nat),
      spawnWorkers env ids done = MainResult.exited code ws → done.length ≤ ws.length := by
  intro ids
  induction ids with
  | nil => intro done ws code h; simp [spawnWorkers] at h
  | cons i rest ih =>
    intro done ws code h
    unfold spawnWorkers at h
    by_cases hi : env.createOk i = true
    · simp only [hi, if_true] at h
      have := ih _ _ _ h
      simp only [List.length_append, List.length_singleton] at this
      omega
    · simp only [hi, Bool.false_eq_true, if_false, MainResult.exited.injEq] at h
      rw [h.2]

theorem threadIds_cases (c : primegen_cfg_st) :
    (c.thrCnt ≤ 0 ∧ threadIds c = []) ∨ (0 < c.thrCnt ∧ ∃ rest, threadIds c = 0 :: rest) := by
  unfold threadIds
  by_cases h : 0 < c.thrCnt
  · right
    refine ⟨h, ?_⟩
    obtain ⟨n, hn⟩ : ∃ n, c.thrCnt.toNat = n + 1 := ⟨c.thrCnt.toNat - 1, by omega⟩
    rw [hn, List.range_succ_eq_map]
    exact ⟨_, rfl⟩
  · left
    have h0 : c.thrCnt.toNat = 0 := by omega
    exact ⟨by omega, by rw [h0]; rfl⟩

theorem spawn_fails_at_once_iff (env : MainEnv) (c : primegen_cfg_st) :
    spawnWorkers env (threadIds c) [] = MainResult.exited 1 [] ↔
      (0 < c.thrCnt ∧ env.createOk 0 = false) := by
  rcases threadIds_cases c with ⟨hle, hnil⟩ | ⟨hpos, rest, hcons⟩
  · rw [hnil]
    simp only [spawnWorkers]
    constructor
    · intro h; cases h
    · rintro ⟨h, _⟩; omega
  · rw [hcons]
    unfold spawnWorkers
    by_cases hi : env.createOk 0 = true
    · simp only [hi, if_true, List.nil_append]
      constructor
      · intro h
        have := spawnWorkers_keeps env _ _ _ _ h
        simp at this
      · rintro ⟨_, h⟩; cases h
    · have hf : env.createOk 0 = false := by simpa using hi
      simp only [hf, Bool.false_eq_true, if_false, true_iff]
      exact ⟨hpos, trivial⟩

theorem mainUpToSpawn_of_cfg (env : MainEnv) (strtoull : String → Nat)
    (strtol : String → Int) (opts : List GetoptResult) (extraArgs : Nat)
    (c : primegen_cfg_st)
    (hc : cliOptsToCfg strtoull strtol opts extraArgs cfgDefault = CliResult.cfg c) :
    (mainUpToSpawn env strtoull strtol opts extraArgs = MainResult.exited 1 [] ↔
      SetupFails env c) ∧
    (env.attrInitOk = true → env.callocOk c.thrCnt = true → (∀ i, env.createOk i = true) →
      mainUpToSpawn env strtoull strtol opts extraArgs = MainResult.spawned (threadIds c)) := by
  unfold mainUpToSpawn SetupFails
  simp only [hc]
  constructor
  · by_cases h1 : env.attrInitOk = true
    · by_cases h2 : env.callocOk c.thrCnt = true
      · have h := spawn_fails_at_once_iff env c
        simpa [h1, h2] using h
      · have h2f : env.callocOk c.thrCnt = false := by simpa using h2
        simp [h1, h2f]
    · have h1f : env.attrInitOk = false := by simpa using h1
      simp [h1f]
  · intro h1 h2 h3
    simp only [h1, h2, Bool.not_true, Bool.false_eq_true, if_false]
    rw [spawnWorkers_all env h3]
    simp

/-- C5 (amended): the program exits with status 1 before any worker thread is spawned
exactly when the command line is in error (an option character other than `o`, `b`, `e`,
`t`, `l`, `p`, which includes `-h`, unknown options and missing arguments, or a trailing
argument) or a thread set-up call fails (`pthread_attr_init`, `calloc`, or the
`pthread_create` of thread 0). There is no check of `primeMin`, `primeMax` or the
sub-range width: every command line of setting options only is accepted, each field of
`cfg` then holds the converted argument of the last option that sets it (its default when
there is none), whatever these values are, and when the set-up calls succeed `main`
creates one worker per thread index below `thrCnt`. -/
theorem main_rejects_only_cli_errors (strtoull : String → Nat) (strtol : String → Int)
    (opts : List GetoptResult) (extraArgs : Nat) :
    (cliOptsToCfg strtoull strtol opts extraArgs cfgDefault = CliResult.exit 1 ↔
      (0 < extraArgs ∨ ∃ r ∈ opts, r.opt ∉ settingOpts)) ∧
    ((0 < extraArgs ∨ ∃ r ∈ opts, r.opt ∉ settingOpts) →
      ∀ env : MainEnv,
        mainUpToSpawn env strtoull strtol opts extraArgs = MainResult.exited 1 []) ∧
    (∀ env : MainEnv,
      mainUpToSpawn env strtoull strtol opts extraArgs = MainResult.exited 1 [] ↔
        (CliError opts extraArgs ∨
          ∃ c, cliOptsToCfg strtoull strtol opts extraArgs cfgDefault = CliResult.cfg c ∧
            SetupFails env c)) ∧
    (extraArgs = 0 → (∀ r ∈ opts, r.opt ∈ settingOpts) →
      ∃ c : primegen_cfg_st,
        cliOptsToCfg strtoull strtol opts extraArgs cfgDefault = CliResult.cfg c ∧
        c.dirOut = ((lastArg 'o' opts).map fun a => a).getD cfgDefault.dirOut ∧
        c.primeMin
          = ((lastArg 'b' opts).map fun a => strtoull a % two64).getD cfgDefault.primeMin ∧
        c.primeMax
          = ((lastArg 'e' opts).map fun a => strtoull a % two64).getD cfgDefault.primeMax ∧
        c.thrCnt
          = ((lastArg 't' opts).map fun a => wrapInt32 (strtol a)).getD cfgDefault.thrCnt ∧
        c.thrPrimeLoops
          = ((lastArg 'l' opts).map fun a => wrapInt32 (strtol a)).getD
              cfgDefault.thrPrimeLoops ∧
        c.thrPrimesPerLoop
          = ((lastArg 'p' opts).map fun a => wrapInt32 (strtol a)).getD
              cfgDefault.thrPrimesPerLoop ∧
        (∀ env : MainEnv,
          mainUpToSpawn env strtoull strtol opts extraArgs = MainResult.exited 1 [] ↔
            SetupFails env c) ∧
        ∀ env : MainEnv, env.attrInitOk = true → env.callocOk c.thrCnt = true →
          (∀ i, env.createOk i = true) →
          mainUpToSpawn env strtoull strtol opts extraArgs
            = MainResult.spawned (threadIds c)) := by
  have hiff := cliOptsToCfg_exit_iff strtoull strtol opts extraArgs
  have hexit : CliError opts extraArgs → ∀ env : MainEnv,
      mainUpToSpawn env strtoull strtol opts extraArgs = MainResult.exited 1 [] := by
    intro hbad env
    unfold mainUpToSpawn
    rw [hiff.2 hbad]
  refine ⟨hiff, hexit, ?_, ?_⟩
  · intro env
    rcases cliOptsToCfg_total strtoull strtol opts extraArgs with hx | ⟨c, hc⟩
    · have hbad := hiff.1 hx
      exact ⟨fun _ => Or.inl hbad, fun _ => hexit hbad env⟩
    · have hgood : ¬ CliError opts extraArgs := by
        intro hbad
        rw [hiff.2 hbad] at hc
        cases hc
      have hm := (mainUpToSpawn_of_cfg env strtoull strtol opts extraArgs c hc).1
      constructor
      · intro h
        exact Or.inr ⟨c, hc, hm.1 h⟩
      · rintro (hbad | ⟨c2, hc2, hs⟩)
        · exact absurd hbad hgood
        · rw [hc] at hc2
          cases hc2
          exact hm.2 hs
  · intro hx hall
    have hgood : ¬ CliError opts extraArgs := by
      rintro (h | ⟨r, hr, hn⟩)
      · omega
      · exact hn (hall r hr)
    rcases cliOptsToCfg_total strtoull strtol opts extraArgs with hx | ⟨c, hc⟩
    · exact absurd (hiff.1 hx) hgood
    · obtain ⟨f1, f2, f3, f4, f5, f6⟩ :=
        cliOptsToCfg_fields strtoull strtol opts extraArgs c hc
      exact ⟨c, hc, f1, f2, f3, f4, f5, f6,
        fun env => (mainUpToSpawn_of_cfg env strtoull strtol opts extraArgs c hc).1,
        fun env => (mainUpToSpawn_of_cfg env strtoull strtol opts extraArgs c hc).2⟩

/-- A concrete instance of the amended C5: `-b 10 -e 5` is accepted with `primeMin = 10`
and `primeMax = 5` and two workers are created when the set-up calls succeed; the same
command line ends with status 1 and no worker when `calloc` fails, and so does a command
line with a trailing argument. -/
theorem main_rejects_only_cli_errors_witness :
    (∃ c : primegen_cfg_st,
      cliOptsToCfg decimalValue (fun s => (decimalValue s : Int)) optsInverted 0 cfgDefault
        = CliResult.cfg c ∧
      c.primeMin = 10 ∧ c.primeMax = 5 ∧ c.thrCnt = 2 ∧
      mainUpToSpawn envAllOk decimalValue (fun s => (decimalValue s : Int)) optsInverted 0
        = MainResult.spawned (threadIds c) ∧
      mainUpToSpawn envCallocFails decimalValue (fun s => (decimalValue s : Int))
        optsInverted 0 = MainResult.exited 1 []) ∧
    (∀ env : MainEnv,
      mainUpToSpawn env decimalValue (fun s => (decimalValue s : Int)) optsInverted 1
        = MainResult.exited 1 []) :=
  have w := (main_rejects_only_cli_errors decimalValue (fun s => (decimalValue s : Int))
      optsInverted 0).2.2.2 rfl (by decide)
  ⟨w.elim fun c hc =>
      ⟨c, hc.1, hc.2.2.1.trans (by decide), hc.2.2.2.1.trans (by decide),
        hc.2.2.2.2.1.trans (by decide),
        hc.2.2.2.2.2.2.2.2 envAllOk rfl rfl (fun _ => rfl),
        (hc.2.2.2.2.2.2.2.1 envCallocFails).2 (Or.inr (Or.inl rfl))⟩,
   (main_rejects_only_cli_errors decimalValue (fun s => (decimalValue s : Int))
      optsInverted 1).2.1 (Or.inl (by decide))⟩

end Primegen
